import Mathlib

/-!
Verification of the `bharathi26/WebClient` repository fragment.

The development shallowly embeds the three source files:

* `src/tasks/rebaseWebClient` — a node script that synchronises the private
  integration branch (`v3`) with the public mirror (`webclient` remote,
  `public` branch).  The script shells out to git; every shell invocation is
  modelled as a state transition on an explicit `GitState`, together with a
  trace of the issued commands/console output (`Ev`).  Fallible invocations
  return into the `Res`/`SyncM` error monad, mirroring the rejection of the
  promisified `exec`.
* `src/unnamed/part_000` — the `protonLoader` directive (class-list updates
  on `networkActivity` events).
* `src/env/conf.build.js` — the static build-asset manifest.

JavaScript string processing used by the script (`strip-ansi`,
`String.prototype.split` with the `'\n'` and `'---'` separators and
destructuring defaults, shell `grep -w`/plain `grep`) is modelled at the
`List Char` level by the executable functions below.
-/

/-! ## Character and string utilities -/
/-- `grep` word-constituent characters (`[A-Za-z0-9_]`, C locale). -/
def isWordChar (c : Char) : Bool := c.isAlphanum || c == '_'

/-- Lower-case hexadecimal digit, the alphabet of git commit hashes (`%H`). -/
def isLowerHex (c : Char) : Bool := c.isDigit || ('a' ≤ c && c ≤ 'f')

/-- Model of the `strip-ansi` npm library: drop ANSI escape sequences.
`false` = ordinary text, `true` = inside an escape sequence (skipping until a
final byte in `0x40`–`0x7E`; the CSI opener `[` does not terminate). -/
def stripAnsiAux : Bool → List Char → List Char
  | _, [] => []
  | true, c :: cs =>
      if 0x40 ≤ c.toNat && c.toNat ≤ 0x7E && c ≠ '[' then stripAnsiAux false cs
      else stripAnsiAux true cs
  | false, c :: cs =>
      if c = '\x1b' then stripAnsiAux true cs
      else c :: stripAnsiAux false cs

def stripAnsiL (l : List Char) : List Char := stripAnsiAux false l

/-- Split a list at the first (leftmost) occurrence of `sep`, dropping it —
the building block of JavaScript `String.prototype.split`.  Returns `none`
when `sep` does not occur. -/
def breakSeq (sep : List Char) : List Char → Option (List Char × List Char)
  | [] => none
  | c :: cs =>
      if sep.isPrefixOf (c :: cs) then some ([], (c :: cs).drop sep.length)
      else
        match breakSeq sep cs with
        | none => none
        | some (pre, post) => some (c :: pre, post)

/-- JavaScript `s.split(sep)[0]` (always defined: `split` yields at least one
element). -/
def firstSeg (sep l : List Char) : List Char :=
  match breakSeq sep l with
  | none => l
  | some (pre, _) => pre

/-- JavaScript `const [a = '', b = ''] = s.split(sep)`: the first two
components of the split, defaulting to the empty string. -/
def jsSplit2 (sep l : List Char) : List Char × List Char :=
  match breakSeq sep l with
  | none => (l, [])
  | some (pre, post) =>
      match breakSeq sep post with
      | none => (pre, post)
      | some (mid, _) => (pre, mid)

/-- Plain `grep` on a single line: the pattern occurs as a substring. -/
def containsSeq (sep l : List Char) : Bool := (breakSeq sep l).isSome

/-- One candidate position of `grep -w`: the pattern sits here and the
character right after it (if any) is not a word constituent. -/
def patHere (pat rest : List Char) : Bool :=
  pat.isPrefixOf rest &&
    (match rest.drop pat.length with
     | [] => true
     | c :: _ => !isWordChar c)

/-- Left-boundary test of `grep -w`: start of line, or the preceding
character is not a word constituent. -/
def boundaryOk : Option Char → Bool
  | none => true
  | some c => !isWordChar c

/-- Scan for a whole-word (`grep -w`) match of `pat`, where `prev` is the
character preceding the current position (`none` at the start of the line). -/
def wwScan (pat : List Char) : Option Char → List Char → Bool
  | prev, [] => boundaryOk prev && patHere pat []
  | prev, c :: cs => (boundaryOk prev && patHere pat (c :: cs)) || wwScan pat (some c) cs

/-- `grep -w pat` selects this line.  (The script interpolates the tag /
commit subject into `grep -w "${name}"`; patterns are treated literally,
which agrees with `grep` on patterns free of regex metacharacters.) -/
def wwMatch (pat line : List Char) : Bool := wwScan pat none line

/-- Join lines with `'\n'` — the stdout of a multi-line `git log`/`grep`. -/
def joinNL : List (List Char) → List Char
  | [] => []
  | [l] => l
  | l :: ls => l ++ '\n' :: joinNL ls

/-- The `'---'` separator of the script's `--pretty=format:'%H---%s'`. -/
def dashes : List Char := ['-', '-', '-']

/-! ## Data model -/
/-- One commit as the script sees it: full hash (`%H`) and subject (`%s`). -/
structure Commit where
  hash : String
  message : String
  deriving DecidableEq, Repr

/-- The script's only entity: `{ hash, label }` as returned by
`getLatestCommit` / `getCommitByName`. -/
structure ReleasePointer where
  hash : String
  label : String
  deriving DecidableEq, Repr

/-- The mutable state of the single local clone the script operates on.
`branches` maps branch name to its history, most-recent-first.  The contents
of the remote-tracking `webclient/public` line (used when the bootstrap
creates the local `public` branch) is `publicRemoteHist`. -/
structure GitState where
  currentBranch : String
  branches : List (String × List Commit)
  remotes : List String
  publicRemoteHist : List Commit
  deriving DecidableEq, Repr

/-- Trace events: every shell command the script issues, and its console
output.  `printErr`/`printHelp` are the failure-path prints of the driver. -/
inductive Ev where
  | revParse                                -- git rev-parse --abbrev-ref HEAD
  | logLatest                               -- git log -1 --pretty=format:'%H---%s' --abbrev-commit
  | logLatestSubject                        -- git log -1 --pretty=format:"%s" --abbrev-commit
  | logGrep (pat : String)                  -- git log --pretty=format:'%H---%s' | grep -w "pat"
  | remoteList                              -- git remote | grep webclient
  | checkout (b : String)                   -- git checkout b
  | remoteAdd (name url : String)           -- git remote add name url
  | configPush (name : String)              -- git config remote.name.push upstream
  | fetch (name : String)                   -- git fetch name
  | checkoutTrack (b src : String)          -- git checkout -b b src
  | pull (remote branch : String)           -- git pull remote branch
  | cherryPick (base tip : String)          -- git cherry-pick -X theirs --allow-empty base..tip
  | push (remote branch : String)           -- git push remote branch
  | printLine (s : String)                  -- console.log(...)
  | printReleases (angular webclient : ReleasePointer)  -- console.log(JSON.stringify(...))
  | printErr (s : String)                   -- console.log(' ⚠ ', e.message)
  | printHelp                               -- help()
  deriving DecidableEq, Repr

/-- Commands that mutate the state of the clone or of the remote (anything
other than a read-only query or console output). -/
def isMutatingEv : Ev → Bool
  | .checkout _ => true
  | .remoteAdd _ _ => true
  | .configPush _ => true
  | .fetch _ => true
  | .checkoutTrack _ _ => true
  | .pull _ _ => true
  | .cherryPick _ _ => true
  | .push _ _ => true
  | _ => false

/-- The four commands of the `addPublicRemote` bootstrap. -/
def isBootstrapEv : Ev → Bool
  | .remoteAdd _ _ => true
  | .configPush _ => true
  | .fetch _ => true
  | .checkoutTrack _ _ => true
  | _ => false

/-- Outcome of running a step: success or a raised error, in both cases with
the resulting repository state and the trace of performed commands (a failed
chain keeps the effects that happened before the failure). -/
inductive Res (α : Type) where
  | ok (a : α) (s : GitState) (t : List Ev)
  | err (msg : String) (s : GitState) (t : List Ev)
  deriving DecidableEq, Repr

def resTrace : Res α → List Ev
  | .ok _ _ t => t
  | .err _ _ t => t

def resState : Res α → GitState
  | .ok _ s _ => s
  | .err _ s _ => s

/-- The script's effect monad: state passing over `GitState` plus an
accumulated trace, with short-circuiting errors (a rejected `exec`). -/
def SyncM (α : Type) : Type := GitState → Res α

def SyncM.pure (a : α) : SyncM α := fun s => .ok a s []

def SyncM.bind (m : SyncM α) (f : α → SyncM β) : SyncM β := fun s =>
  match m s with
  | .err e s' t => .err e s' t
  | .ok a s' t =>
      match f a s' with
      | .err e s'' t' => .err e s'' (t ++ t')
      | .ok b s'' t' => .ok b s'' (t ++ t')

instance : Monad SyncM where
  pure := SyncM.pure
  bind := SyncM.bind

/-- JavaScript `try { m } catch (e) { h }` (the script ignores `e`). -/
def tryCatchM (m h : SyncM α) : SyncM α := fun s =>
  match m s with
  | .ok a s' t => .ok a s' t
  | .err _ s' t =>
      match h s' with
      | .ok a s'' t' => .ok a s'' (t ++ t')
      | .err e s'' t' => .err e s'' (t ++ t')

/-- `throw new Error msg`. -/
def throwM (msg : String) : SyncM α := fun s => .err msg s []

/-- A console print (no state change, always succeeds). -/
def emit (e : Ev) : SyncM Unit := fun s => .ok () s [e]

/-! ## Git command primitives

Each primitive models one shell command issued by `src/tasks/rebaseWebClient`
as seen through the promisified `exec`: on a non-zero exit status the promise
rejects (`Res.err`), otherwise it resolves with the command's stdout.  The
version-control system itself is an external collaborator; its commands are
given their documented effect on `GitState`.  Remote repositories are
modelled as already fetched (`pull`/`fetch` verify that the remote is
registered and leave the local histories unchanged). -/
/-- `git rev-parse --abbrev-ref HEAD` — prints the current branch name
followed by a newline. -/
def execRevParse : SyncM String := fun s =>
  .ok (s.currentBranch ++ "\n") s [.revParse]

/-- The `'%H---%s'` log line of a commit. -/
def fmtLineData (c : Commit) : List Char := c.hash.data ++ dashes ++ c.message.data

/-- `git log -1 --pretty=format:'%H---%s' --abbrev-commit` on the current
branch (no trailing newline with `format:`); fails on an empty history. -/
def execLogLatest : SyncM String := fun s =>
  match s.branches.lookup s.currentBranch with
  | some (c :: _) => .ok ⟨fmtLineData c⟩ s [.logLatest]
  | some [] => .err "Command failed: git log -1" s [.logLatest]
  | none => .err "Command failed: git log -1" s [.logLatest]

/-- `git log -1 --pretty=format:"%s" --abbrev-commit` — subject only. -/
def execLogLatestSubject : SyncM String := fun s =>
  match s.branches.lookup s.currentBranch with
  | some (c :: _) => .ok c.message s [.logLatestSubject]
  | some [] => .err "Command failed: git log -1" s [.logLatestSubject]
  | none => .err "Command failed: git log -1" s [.logLatestSubject]

/-- `git log --pretty=format:'%H---%s' | grep -w "pat"` — the whole-word
matching lines of the full current-branch history, most-recent-first.  The
pipeline's exit status is `grep`'s: it fails (exit 1) when nothing matches. -/
def execLogGrep (pat : String) : SyncM String := fun s =>
  match s.branches.lookup s.currentBranch with
  | some hist =>
      match (hist.map fmtLineData).filter (wwMatch pat.data) with
      | [] => .err "Command failed: git log | grep" s [.logGrep pat]
      | ls => .ok ⟨joinNL ls⟩ s [.logGrep pat]
  | none => .err "Command failed: git log | grep" s [.logGrep pat]

/-- `git remote | grep webclient` — succeeds iff some registered remote's
name contains `webclient` as a substring (plain `grep`, one name per line). -/
def execRemoteGrepWebclient : SyncM Unit := fun s =>
  if s.remotes.any (fun r => containsSeq "webclient".data r.data) then
    .ok () s [.remoteList]
  else
    .err "Command failed: git remote | grep webclient" s [.remoteList]

/-- `git checkout b` — fails when `b` is not a local branch. -/
def execCheckout (b : String) : SyncM Unit := fun s =>
  match s.branches.lookup b with
  | some _ => .ok () { s with currentBranch := b } [.checkout b]
  | none => .err ("error: pathspec " ++ b) s [.checkout b]

/-- `git remote add name url` — fails when the remote already exists. -/
def execRemoteAdd (name url : String) : SyncM Unit := fun s =>
  if name ∈ s.remotes then .err ("error: remote " ++ name ++ " already exists") s [.remoteAdd name url]
  else .ok () { s with remotes := s.remotes ++ [name] } [.remoteAdd name url]

/-- `git config remote.name.push upstream` — a pure configuration write. -/
def execConfigPush (name : String) : SyncM Unit := fun s =>
  .ok () s [.configPush name]

/-- `git fetch name` — fails when the remote is not registered. -/
def execFetch (name : String) : SyncM Unit := fun s =>
  if name ∈ s.remotes then .ok () s [.fetch name]
  else .err ("fatal: " ++ name ++ " does not appear to be a git repository") s [.fetch name]

/-- `git checkout -b b webclient/public` — creates (and checks out) a local
branch tracking the fetched remote line; fails when `b` already exists or the
`webclient` remote is missing. -/
def execCheckoutTrack (b src : String) : SyncM Unit := fun s =>
  match s.branches.lookup b with
  | some _ => .err ("fatal: a branch named " ++ b ++ " already exists") s [.checkoutTrack b src]
  | none =>
      if "webclient" ∈ s.remotes then
        .ok () { s with branches := (b, s.publicRemoteHist) :: s.branches, currentBranch := b }
          [.checkoutTrack b src]
      else
        .err "fatal: invalid reference" s [.checkoutTrack b src]

/-- `git pull remote branch` — fails when the remote is not registered; the
local branch is modelled as already up to date. -/
def execPull (remote branch : String) : SyncM Unit := fun s =>
  if remote ∈ s.remotes then .ok () s [.pull remote branch]
  else .err ("fatal: " ++ remote ++ " does not appear to be a git repository") s [.pull remote branch]

/-- The commits of the range `base..tip` on a most-recent-first linear
history: everything from `tip` down to (excluding) `base`. -/
def rangeOf (hist : List Commit) (base tip : String) : List Commit :=
  (hist.dropWhile (fun c => c.hash ≠ tip)).takeWhile (fun c => c.hash ≠ base)

/-- Replace the history of branch `b`. -/
def updateBranch (l : List (String × List Commit)) (b : String) (h : List Commit) :
    List (String × List Commit) :=
  l.map (fun p => if p.1 = b then (p.1, h) else p)

/-- `git cherry-pick -X theirs --allow-empty base..tip` — replays the range
(resolved against the `v3` history the two release pointers come from) onto
the current branch.  When the revision range is empty — in particular when
`base = tip` — git rejects the invocation with `error: empty commit set
passed` and a nonzero exit status (`--allow-empty` only tolerates picks
that are or become empty commits, not an empty set), so the promisified
`exec` rejects.  Conflict failures concern file contents, which are outside
this model (the version-control system is an external collaborator); a
nonempty range replays its commits in their recorded form. -/
def execCherryPick (base tip : String) : SyncM Unit := fun s =>
  match rangeOf ((s.branches.lookup "v3").getD []) base tip with
  | [] => .err "error: empty commit set passed" s [.cherryPick base tip]
  | range =>
      let cur := (s.branches.lookup s.currentBranch).getD []
      .ok () { s with branches := updateBranch s.branches s.currentBranch (range ++ cur) }
        [.cherryPick base tip]

/-- `git push remote branch` — fails when the remote is not registered; on
success the pushed `public` line of the mirror now holds the local branch. -/
def execPush (remote branch : String) : SyncM Unit := fun s =>
  if remote ∈ s.remotes then
    .ok () { s with publicRemoteHist := (s.branches.lookup branch).getD [] } [.push remote branch]
  else .err ("fatal: " ++ remote ++ " does not appear to be a git repository") s [.push remote branch]

/-! ## The script's functions (src/tasks/rebaseWebClient) -/
/-- `success(msg)` prints a green check mark followed by the message. -/
def successMsg (m : String) : String := "✓ " ++ m ++ "."

/-- JavaScript truthiness of the optional `--tag` value (`undefined` and the
empty string are falsy). -/
def truthy : Option String → Bool
  | none => false
  | some s => !s.isEmpty

/-- String interpolation `` `${v}` `` of an optional value: `undefined`
interpolates to the literal text `"undefined"`. -/
def interpolate : Option String → String
  | none => "undefined"
  | some s => s

/-- Lines 34–39: read the most recent commit of the current branch and parse
`stdout.split('\n')[0].split('---')` into `{ hash, label }` (fields default
to the empty string). -/
def getLatestCommit : SyncM ReleasePointer := do
  let stdout ← execLogLatest
  let output := firstSeg ['\n'] (stripAnsiL stdout.data)
  let hl := jsSplit2 dashes output
  pure ⟨⟨hl.1⟩, ⟨hl.2⟩⟩

/-- Lines 41–46: grep the full history for `name` as a whole word and parse
the first (most recent) matching line into `{ hash, label }`. -/
def getCommitByName (name : String) : SyncM ReleasePointer := do
  let stdout ← execLogGrep name
  let output := firstSeg ['\n'] (stripAnsiL stdout.data)
  let hl := jsSplit2 dashes output
  pure ⟨⟨hl.1⟩, ⟨hl.2⟩⟩

/-- Lines 48–53: `getAngularRelease(name)`.  `argvTag` is the module-global
`argv.tag` parsed by minimist; note that the truthiness test is on the
`name` parameter while the grep pattern is `argv.tag`. -/
def getAngularRelease (argvTag : Option String) (name : Option String) : SyncM ReleasePointer :=
  if truthy name then getCommitByName (interpolate argvTag)
  else getLatestCommit

/-- Lines 55–64: check out `public`, read its most recent subject, check
`v3` back out, and look that subject up in the (now current) `v3` history. -/
def getWebclientRelease : SyncM ReleasePointer := do
  execCheckout "public"
  let stdout ← execLogLatestSubject
  execCheckout "v3"
  let output : String := ⟨firstSeg ['\n'] (stripAnsiL stdout.data)⟩
  getCommitByName output

/-- Lines 66–72: fail unless the current branch is `v3`. -/
def isDeployAbleBranch : SyncM Unit := do
  let stdout ← execRevParse
  let output : String := ⟨firstSeg ['\n'] (stripAnsiL stdout.data)⟩
  if output ≠ "v3" then throwM "You must be on V3 to sync the webclient"
  else pure ()

/-- Lines 75–82: one-time bootstrap of the `webclient` remote and the local
`public` tracking branch. -/
def addPublicRemote : SyncM Unit := do
  execRemoteAdd "webclient" "git@github.com:ProtonMail/WebClient.git"
  execConfigPush "webclient"
  execFetch "webclient"
  execCheckoutTrack "public" "webclient/public"
  emit (.printLine (successMsg "Add public remote"))

/-- Lines 84–91: run the remote-existence check; on its failure run the
bootstrap. -/
def hasPublicRemote : SyncM Unit :=
  tryCatchM
    (do execRemoteGrepWebclient
        emit (.printLine (successMsg "Public remote exists")))
    addPublicRemote

/-- Lines 109–121: the synchronisation pipeline (`&&`-chained commands
execute sequentially and short-circuit on failure, exactly like the monadic
sequence). -/
def syncWebclient (wp lp : ReleasePointer) : SyncM Unit := do
  execCheckout "v3"
  execPull "origin" "v3"
  execCheckout "public"
  execPull "webclient" "public"
  execCherryPick wp.hash lp.hash
  execPush "webclient" "public"
  execCheckout "v3"
  emit (.printLine (successMsg "Sync webclient"))

/-- Lines 149–160: the body of the driver's `try` block (the trailing
`process.exit(0)` is accounted for in `runMain`). -/
def driver (argvTag : Option String) : SyncM Unit := do
  isDeployAbleBranch
  hasPublicRemote
  let angularRelease ← getAngularRelease argvTag argvTag
  let webclientRelease ← getWebclientRelease
  emit (.printLine "")
  emit (.printReleases angularRelease webclientRelease)
  emit (.printLine "")
  syncWebclient webclientRelease angularRelease

/-- Lines 149–166: run the workflow; on success exit 0, on any failure print
the error message, a blank line and the help text, then exit 1. -/
def runMain (argvTag : Option String) (s : GitState) : Nat × GitState × List Ev :=
  match driver argvTag s with
  | .ok _ s' t => (0, s', t)
  | .err m s' t => (1, s', t ++ [.printErr m, .printLine "", .printHelp])

/-- Lines 148–149: `argv.help && help(); !argv.help && (async () => ...)`. -/
def mainEntry (helpFlag : Bool) (argvTag : Option String) (s : GitState) :
    Nat × GitState × List Ev :=
  if helpFlag then (0, s, [.printHelp]) else runMain argvTag s

/-! ## protonLoader directive (src/unnamed/part_000)

The directive's link function registers a `networkActivity` handler on the
root scope; the handler updates the loader element's DOM class list
(`classList.add('show')` / `classList.remove('show')` inside a
`requestAnimationFrame` callback, modelled as the applied update).  A DOM
class list never gains a duplicate token on `add`, and `remove` removes
every instance of the token. -/
def classListAdd (cl : List String) (tok : String) : List String :=
  if tok ∈ cl then cl else cl ++ [tok]

def classListRemove (cl : List String) (tok : String) : List String :=
  cl.filter (fun c => c ≠ tok)

/-- The `networkActivity` handler of `protonLoader`: the two guarded
statements of the source, applied in order to the element's class list. -/
def protonLoaderOnNetworkActivity (ty : String) (cl : List String) : List String :=
  let cl₁ := if ty = "load" then classListAdd cl "show" else cl
  let cl₂ := if ty = "close" then classListRemove cl₁ "show" else cl₁
  cl₂

/-! ## Build configuration (src/env/conf.build.js) -/
/-- `` const bindPrefix = (name) => `node_modules/${name}` `` -/
def bindPrefix (name : String) : String := "node_modules/" ++ name

structure ExternalFiles where
  openpgp : List String
  manifest : List String
  deriving DecidableEq, Repr

structure VendorFiles where
  js : List String
  jsLazy : List String
  jsLazy2 : List String
  css : List String
  fonts : List String
  sass_include_dirs : List String
  deriving DecidableEq, Repr

structure BuildConf where
  external_files : ExternalFiles
  vendor_files : VendorFiles
  deriving DecidableEq, Repr

/-- The exported configuration object, transcribed entry for entry. -/
def confBuild : BuildConf :=
  { external_files :=
      { openpgp := ["openpgp/dist/openpgp.worker.min.js", "openpgp/dist/openpgp.min.js"].map bindPrefix
        manifest := ["manifest.json"] }
    vendor_files :=
      { js :=
          [ "jquery/dist/jquery.js"
          , "jquery.payment/lib/jquery.payment.js"
          , "fastclick/lib/fastclick.js"
          , "angular/angular.js"
          , "bootstrap-sass/assets/javascripts/bootstrap.js"
          , "autofill-event/src/autofill-event.js"
          , "angular-cookies/angular-cookies.js"
          , "angular-ui-router/release/angular-ui-router.js"
          , "angular-sanitize/angular-sanitize.js"
          , "angular-notify/dist/angular-notify.js"
          , "oclazyload/dist/ocLazyLoad.js"
          , "html2canvas/dist/html2canvas.js"
          , "svg4everybody/dist/svg4everybody.js"
          , "angular-messages/angular-messages.js"
          , "mousetrap/mousetrap.js"
          , "mousetrap-pause/mousetrap-pause.js"
          , "angular-gettext/dist/angular-gettext.js"
          , "fingerprintjs2/fingerprint2.js"
          , "bcryptjs/dist/bcrypt.js"
          , "nouislider/distribute/nouislider.js"
          , "ua-parser-js/src/ua-parser.js"
          , "intl-tel-input/build/js/intlTelInput.js"
          , "intl-tel-input/build/js/utils.js"
          , "ng-intl-tel-input/dist/ng-intl-tel-input.js"
          , "hi-base32/build/base32.min.js"
          , "cssuseragent/cssua.js"
          , "asmcrypto.js/asmcrypto.js"
          , "babel-polyfill/dist/polyfill.js"
          , "pmcrypto/build/pmcrypto.js"
          , "dompurify/dist/purify.js"
          , "bootstrap-sass/assets/javascripts/bootstrap.js"
          ].map bindPrefix
        jsLazy :=
          [ "moment/min/moment-with-locales.js"
          , "moment-timezone/builds/moment-timezone-with-data.js"
          , "papaparse/papaparse.js"
          , "ng-sortable/dist/ng-sortable.js"
          , "pikaday/pikaday.js"
          , "ng-pikaday/ng-pikaday.js"
          , "jquery-timepicker/jquery.timepicker.js"
          , "squire-rte/build/squire-raw.js"
          , "dropzone/dist/dropzone.js"
          , "ical.js/build/ical.js"
          , "angular-ical/dist/js/angular-ical.js"
          , "push.js/push.js"
          , "awesomplete/awesomplete.js"
          , "angular-ui-indeterminate/dist/indeterminate.js"
          , "jquery-mousewheel/jquery.mousewheel.js"
          , "malihu-custom-scrollbar-plugin/jquery.mCustomScrollbar.js"
          , "ng-scrollbars/dist/scrollbars.min.js"
          , "sieve.js/sieve.js"
          , "blob.js/Blob.js"
          , "file-saver/FileSaver.js"
          , "qrcodejs2/qrcode.min.js"
          , "pt.mailparser/mailparser.js"
          , "markdown-it/dist/markdown-it.min.js"
          , "clipboard/dist/clipboard.js"
          , "angular-vs-repeat/src/angular-vs-repeat.js"
          , "vcf/dist/vcard.js"
          , "jszip/dist/jszip.min.js"
          ].map bindPrefix
        jsLazy2 :=
          [ "codemirror/lib/codemirror.js"
          , "codemirror/addon/display/autorefresh.js"
          , "codemirror/mode/sieve/sieve.js"
          , "codemirror/addon/lint/lint.js"
          , "angular-ui-codemirror/dist/ui-codemirror.min.js"
          ].map bindPrefix
        css :=
          [ "ng-sortable/dist/ng-sortable.css"
          , "angular-notify/dist/angular-notify.css"
          , "pikaday/css/pikaday.css"
          , "dropzone/dist/dropzone.css"
          , "awesomplete/awesomplete.css"
          , "nouislider/distribute/nouislider.css"
          , "malihu-custom-scrollbar-plugin/jquery.mCustomScrollbar.css"
          , "codemirror/lib/codemirror.css"
          , "codemirror/addon/lint/lint.css"
          ].map bindPrefix
        fonts := ["components-font-awesome/fonts/*"].map bindPrefix
        sass_include_dirs :=
          ["bourbon/dist", "bootstrap-sass-official/assets/stylesheets"].map bindPrefix } }

/-! ## Well-formedness

What git guarantees about the data the script parses: full hashes are 40
lower-case hex characters, and a commit subject (`%s`) is a single line.
The last conjunct records the parsing assumption of the `'---'` separator:
subjects do not themselves contain `'---'` (otherwise the script would
truncate the label at the first occurrence). -/
def WFCommit (c : Commit) : Prop :=
  c.hash.data.length = 40 ∧
  (∀ ch ∈ c.hash.data, isLowerHex ch = true) ∧
  (∀ ch ∈ c.message.data, ch ≠ '\n' ∧ ch ≠ '\x1b') ∧
  breakSeq dashes c.message.data = none

instance (c : Commit) : Decidable (WFCommit c) := by
  unfold WFCommit; infer_instance

/-- The Boolean pattern condition under which matching a `'%H---%s'` line is
matching the subject: nonempty, not starting with `'-'`, and some character
among the first 41 that is neither lower-case hex nor `'-'` (so the match
cannot sit inside or overlap the 40-character hash). -/
def patOkB (p : List Char) : Bool :=
  !p.isEmpty && p.headD ' ' != '-' &&
    (List.range 41).any (fun j =>
      decide (j < p.length) && !isLowerHex (p.getD j ' ') && p.getD j ' ' != '-')

def sC1 : GitState :=
  { currentBranch := "feature-x"
    branches := [("feature-x", []), ("v3", [])]
    remotes := []
    publicRemoteHist := [] }

/-- A 40-character lower-case hex hash (the integration-branch commit). -/
def hashA : String := "aaaaaaaaaaaaaaaaaaaaaaaaaaaaaaaaaaaaaaaa"

/-- A 40-character lower-case hex hash (the public-mirror commit). -/
def hashB : String := "bbbbbbbbbbbbbbbbbbbbbbbbbbbbbbbbbbbbbbbb"

/-- A 40-character lower-case hex hash (the older integration commit). -/
def hashC : String := "cccccccccccccccccccccccccccccccccccccccc"

/-- The most recent `v3` commit, not yet on the mirror. -/
def cNew : Commit := ⟨hashA, "Release two"⟩

/-- The older `v3` commit whose subject is already live on the mirror. -/
def cOld : Commit := ⟨hashC, "Release one"⟩

def cB : Commit := ⟨hashB, "Release one"⟩

/-- A repository state on which the whole workflow succeeds: on `v3`, both
branches present, both remotes registered, the public head's subject also
present on `v3`, and one newer `v3` commit left to replay (so the
cherry-pick range is nonempty). -/
def sFull : GitState :=
  { currentBranch := "v3"
    branches := [("v3", [cNew, cOld]), ("public", [cB])]
    remotes := ["origin", "webclient"]
    publicRemoteHist := [cB] }

def remoteCheckPasses (s : GitState) : Bool :=
  s.remotes.any (fun r => containsSeq "webclient".data r.data)

def isRemoteAddEv : Ev → Bool
  | .remoteAdd _ _ => true
  | _ => false

def cRel : Commit := ⟨hashA, "Release 3.12.24 fixes"⟩

def cOther : Commit := ⟨hashB, "contains other stuff"⟩

/-- `--tag=other` recorded globally while the function argument is
`"3.12.24"`: the history used by the counterexample. -/
def sC2 : GitState :=
  { currentBranch := "v3"
    branches := [("v3", [cRel, cOther])]
    remotes := ["origin", "webclient"]
    publicRemoteHist := [] }

/-- Console events of the failure path: the error print and the help text. -/
def evClean : Ev → Bool
  | .printErr _ => false
  | .printHelp => false
  | _ => true

/-- The program never prints an error message or the help text except in the
driver's catch block. -/
def CleanM {α : Type} (m : SyncM α) : Prop :=
  ∀ s, (resTrace (m s)).all evClean = true

/-! ## Theorems -/

/-! ## Basic lemmas about the string utilities -/
theorem stripAnsiL_clean (l : List Char) (h : ∀ c ∈ l, c ≠ '\x1b') :
    stripAnsiL l = l := by
  unfold stripAnsiL
  induction l with
  | nil => rfl
  | cons c cs ih =>
      have hc : c ≠ '\x1b' := h c (List.mem_cons_self c cs)
      simp only [stripAnsiAux, if_neg hc]
      exact congrArg (c :: ·) (ih fun x hx => h x (List.mem_cons_of_mem c hx))

theorem breakSeq_eq_none (sep l : List Char) (hsep : sep ≠ [])
    (h : ∀ c ∈ l, c ≠ sep.headD ' ') : breakSeq sep l = none := by
  induction l with
  | nil => rfl
  | cons c cs ih =>
      have hpre : sep.isPrefixOf (c :: cs) = false := by
        cases sep with
        | nil => exact absurd rfl hsep
        | cons s ss =>
            have hc : c ≠ s := by
              have := h c (List.mem_cons_self c cs)
              simpa using this
            simp [List.isPrefixOf, Ne.symm hc]
      simp only [breakSeq, hpre, Bool.false_eq_true, if_false]
      rw [ih fun x hx => h x (List.mem_cons_of_mem c hx)]

theorem breakSeq_append (sep a b : List Char) (hsep : sep ≠ [])
    (h : ∀ c ∈ a, c ≠ sep.headD ' ') :
    breakSeq sep (a ++ sep ++ b) = some (a, b) := by
  induction a with
  | nil =>
      cases sep with
      | nil => exact absurd rfl hsep
      | cons s ss =>
          have hpre : (s :: ss).isPrefixOf (s :: (ss ++ b)) = true := by
            rw [List.isPrefixOf_iff_prefix]
            exact ⟨b, by simp⟩
          simp only [List.nil_append, breakSeq, hpre, if_true]
          simp [List.drop_succ_cons, List.drop_left]
  | cons c cs ih =>
      have hpre : sep.isPrefixOf (c :: (cs ++ sep ++ b)) = false := by
        cases sep with
        | nil => exact absurd rfl hsep
        | cons s ss =>
            have hc : c ≠ s := by
              have := h c (List.mem_cons_self c cs)
              simpa using this
            simp [List.isPrefixOf, Ne.symm hc]
      have harr : (c :: cs) ++ sep ++ b = c :: (cs ++ sep ++ b) := by simp
      rw [harr]
      simp only [breakSeq, hpre, Bool.false_eq_true, if_false]
      rw [ih fun x hx => h x (List.mem_cons_of_mem c hx)]

theorem isLowerHex_ne_dash {c : Char} (h : isLowerHex c = true) : c ≠ '-' := by
  intro hc; subst hc; exact absurd h (by decide)

theorem isLowerHex_ne_nl {c : Char} (h : isLowerHex c = true) : c ≠ '\n' := by
  intro hc; subst hc; exact absurd h (by decide)

theorem isLowerHex_ne_esc {c : Char} (h : isLowerHex c = true) : c ≠ '\x1b' := by
  intro hc; subst hc; exact absurd h (by decide)

theorem isLowerHex_isWordChar {c : Char} (h : isLowerHex c = true) : isWordChar c = true := by
  simp only [isLowerHex, Bool.or_eq_true, Bool.and_eq_true, decide_eq_true_eq] at h
  unfold isWordChar
  rcases h with hd | ⟨h1, h2⟩
  · simp [Char.isAlphanum, hd]
  · have h3 : c ≤ 'z' := le_trans h2 (by decide)
    simp only [Char.isAlphanum, Char.isAlpha, Char.isLower, Bool.or_eq_true,
      Bool.and_eq_true, decide_eq_true_eq]
    exact Or.inl (Or.inl (Or.inr ⟨h1, h3⟩))

theorem firstSeg_no_sep (x : Char) (l : List Char) (h : ∀ c ∈ l, c ≠ x) :
    firstSeg [x] l = l := by
  unfold firstSeg
  rw [breakSeq_eq_none [x] l (by simp) (by simpa using h)]

theorem firstSeg_before_sep (x : Char) (l r : List Char) (h : ∀ c ∈ l, c ≠ x) :
    firstSeg [x] (l ++ x :: r) = l := by
  unfold firstSeg
  have : l ++ x :: r = l ++ [x] ++ r := by simp
  rw [this, breakSeq_append [x] l r (by simp) (by simpa using h)]

theorem jsSplit2_line (a b : List Char) (ha : ∀ c ∈ a, c ≠ '-')
    (hb : breakSeq dashes b = none) :
    jsSplit2 dashes (a ++ dashes ++ b) = (a, b) := by
  unfold jsSplit2
  rw [breakSeq_append dashes a b (by simp [dashes]) (by simpa [dashes] using ha)]
  simp [hb]

theorem mem_joinNL {c : Char} {ls : List (List Char)} (h : c ∈ joinNL ls) :
    c = '\n' ∨ ∃ l ∈ ls, c ∈ l := by
  induction ls with
  | nil => simp [joinNL] at h
  | cons l rest ih =>
      cases rest with
      | nil =>
          right; exact ⟨l, List.mem_cons_self _ _, by simpa [joinNL] using h⟩
      | cons l2 rest2 =>
          simp only [joinNL, List.mem_append, List.mem_cons] at h
          rcases h with h | h | h
          · right; exact ⟨l, List.mem_cons_self _ _, h⟩
          · left; exact h
          · rcases ih (by simpa [joinNL] using h) with hnl | ⟨l', hl', hc⟩
            · left; exact hnl
            · right; exact ⟨l', List.mem_cons_of_mem _ hl', hc⟩

theorem WFCommit.fmtLine_clean {c : Commit} (h : WFCommit c) :
    ∀ ch ∈ fmtLineData c, ch ≠ '\n' ∧ ch ≠ '\x1b' := by
  intro ch hch
  unfold fmtLineData at hch
  simp only [List.append_assoc, List.mem_append] at hch
  rcases hch with hh | hd | hm
  · exact ⟨isLowerHex_ne_nl (h.2.1 ch hh), isLowerHex_ne_esc (h.2.1 ch hh)⟩
  · have : ch = '-' := by simpa [dashes] using hd
    subst this; exact ⟨by decide, by decide⟩
  · exact h.2.2.1 ch hm

/-! ## Monad decomposition lemmas -/
theorem SyncM.bind_def (m : SyncM α) (f : α → SyncM β) : m >>= f = SyncM.bind m f := rfl

theorem SyncM.pure_def (a : α) : (Pure.pure a : SyncM α) = SyncM.pure a := rfl

theorem SyncM.bind_ok {α β : Type} {m : SyncM α} {f : α → SyncM β} {s s₂ : GitState}
    {b : β} {t : List Ev} (h : SyncM.bind m f s = .ok b s₂ t) :
    ∃ a s₁ t₁ t₂, m s = .ok a s₁ t₁ ∧ f a s₁ = .ok b s₂ t₂ ∧ t = t₁ ++ t₂ := by
  unfold SyncM.bind at h
  cases hm : m s with
  | err e s' t' => rw [hm] at h; exact absurd h (by simp)
  | ok a s₁ t₁ =>
      rw [hm] at h
      dsimp only at h
      cases hf : f a s₁ with
      | err e s'' t' => rw [hf] at h; exact absurd h (by simp)
      | ok b' s'' t' =>
          rw [hf] at h
          dsimp only at h
          obtain ⟨hb, hs, ht⟩ := Res.ok.inj h
          exact ⟨a, s₁, t₁, t', rfl, by rw [hf, hb, hs], ht.symm⟩

/-! ## Whole-word matching over `'%H---%s'` lines

A `grep -w` pattern that does not start with `'-'` and has, within its first
41 characters, a character that is neither a lower-case hex digit nor `'-'`,
can only match inside the subject part of a `hash---subject` line; for such
patterns the line matches exactly when the subject matches. -/
theorem isWordChar_dash : isWordChar '-' = false := by decide

theorem boundaryOk_word {c : Char} (h : isWordChar c = true) :
    boundaryOk (some c) = false := by
  simp [boundaryOk, h]

theorem boundaryOk_dash_eq_none : boundaryOk (some '-') = boundaryOk none := by decide

theorem wwScan_congr_prev (pat : List Char) (p q : Option Char) (l : List Char)
    (h : boundaryOk p = boundaryOk q) : wwScan pat p l = wwScan pat q l := by
  cases l with
  | nil => simp [wwScan, h]
  | cons c cs => simp [wwScan, h]

theorem patHere_dash {pat : List Char} (hne : pat ≠ []) (hhead : pat.headD ' ' ≠ '-')
    (rest : List Char) : patHere pat ('-' :: rest) = false := by
  cases pat with
  | nil => exact absurd rfl hne
  | cons p ps =>
      have hp : p ≠ '-' := by simpa using hhead
      simp [patHere, List.isPrefixOf, hp]

theorem not_prefix_of_hash (pat hs rest2 : List Char) (hlen : hs.length = 40)
    (hhex : ∀ c ∈ hs, isLowerHex c = true)
    (hj : ∃ j, j < pat.length ∧ j ≤ 40 ∧ isLowerHex (pat.getD j ' ') = false ∧
      pat.getD j ' ' ≠ '-') :
    pat.isPrefixOf (hs ++ '-' :: rest2) = false := by
  obtain ⟨j, hjlen, hj40, hjx, hjd⟩ := hj
  by_contra hcon
  have hpre : pat <+: (hs ++ '-' :: rest2) := by
    rw [← List.isPrefixOf_iff_prefix]
    simpa using hcon
  have hlenle : pat.length ≤ (hs ++ '-' :: rest2).length := hpre.length_le
  have hjL : j < (hs ++ '-' :: rest2).length := lt_of_lt_of_le hjlen hlenle
  have hgetp : pat.getD j ' ' = (hs ++ '-' :: rest2).getD j ' ' := by
    obtain ⟨tail, htail⟩ := hpre
    rw [← htail]
    rw [List.getD_eq_getElem?_getD, List.getD_eq_getElem?_getD]
    rw [List.getElem?_append_left hjlen]
  rcases lt_or_eq_of_le hj40 with hlt | heq
  · have hjhs : j < hs.length := by omega
    have : (hs ++ '-' :: rest2).getD j ' ' = hs.getD j ' ' := by
      rw [List.getD_eq_getElem?_getD, List.getD_eq_getElem?_getD,
        List.getElem?_append_left hjhs]
    rw [this] at hgetp
    have hmem : hs.getD j ' ' ∈ hs := by
      rw [List.getD_eq_getElem?_getD, List.getElem?_eq_getElem hjhs]
      exact List.getElem_mem hjhs
    have := hhex _ hmem
    rw [← hgetp] at this
    rw [this] at hjx
    exact absurd hjx (by simp)
  · subst heq
    have : (hs ++ '-' :: rest2).getD 40 ' ' = '-' := by
      rw [List.getD_eq_getElem?_getD]
      rw [List.getElem?_append_right (by omega)]
      simp [hlen]
    rw [this] at hgetp
    exact hjd hgetp

theorem wwScan_interior (pat msg : List Char) (hne : pat ≠ [])
    (hhead : pat.headD ' ' ≠ '-') :
    ∀ hs : List Char, (∀ x ∈ hs, isLowerHex x = true) →
      ∀ c : Char, isWordChar c = true →
        wwScan pat (some c) (hs ++ '-' :: '-' :: '-' :: msg) = wwScan pat none msg := by
  intro hs
  induction hs with
  | nil =>
      intro _ c hcw
      simp only [List.nil_append, wwScan, boundaryOk_word hcw, Bool.false_and, Bool.false_or,
        patHere_dash hne hhead, boundaryOk, isWordChar_dash, Bool.not_false, Bool.true_and,
        Bool.and_false]
      exact wwScan_congr_prev pat (some '-') none msg boundaryOk_dash_eq_none
  | cons h t ih =>
      intro hhex c hcw
      have hh : isWordChar h = true :=
        isLowerHex_isWordChar (hhex h (List.mem_cons_self h t))
      simp only [List.cons_append, wwScan, boundaryOk_word hcw, Bool.false_and, Bool.false_or]
      exact ih (fun x hx => hhex x (List.mem_cons_of_mem h hx)) h hh

theorem wwScan_hash_line (pat hs msg : List Char) (hlen : hs.length = 40)
    (hhex : ∀ c ∈ hs, isLowerHex c = true) (hne : pat ≠ [])
    (hhead : pat.headD ' ' ≠ '-')
    (hj : ∃ j, j < pat.length ∧ j ≤ 40 ∧ isLowerHex (pat.getD j ' ') = false ∧
      pat.getD j ' ' ≠ '-') :
    wwScan pat none (hs ++ '-' :: '-' :: '-' :: msg) = wwScan pat none msg := by
  cases hs with
  | nil => simp at hlen
  | cons h t =>
      have hpre : pat.isPrefixOf (h :: (t ++ '-' :: '-' :: '-' :: msg)) = false := by
        have := not_prefix_of_hash pat (h :: t) ('-' :: '-' :: msg) hlen hhex hj
        simpa using this
      have hh : isWordChar h = true :=
        isLowerHex_isWordChar (hhex h (List.mem_cons_self h t))
      simp only [List.cons_append, wwScan, patHere, List.append_eq, hpre, Bool.false_and,
        Bool.and_false, Bool.false_or]
      exact wwScan_interior pat msg hne hhead t
        (fun x hx => hhex x (List.mem_cons_of_mem h hx)) h hh

theorem patOkB_spec {p : List Char} (h : patOkB p = true) :
    p ≠ [] ∧ p.headD ' ' ≠ '-' ∧ ∃ j, j < p.length ∧ j ≤ 40 ∧
      isLowerHex (p.getD j ' ') = false ∧ p.getD j ' ' ≠ '-' := by
  simp only [patOkB, Bool.and_eq_true, Bool.not_eq_true', List.any_eq_true,
    List.mem_range, bne_iff_ne, ne_eq, decide_eq_true_eq] at h
  obtain ⟨⟨hne, hhd⟩, j, hj41, ⟨hjlen, hx⟩, hd⟩ := h
  refine ⟨?_, hhd, j, hjlen, by omega, hx, hd⟩
  intro hnil
  rw [hnil] at hne
  exact absurd hne (by simp)

theorem wwMatch_fmtLine {pat : List Char} {c : Commit} (hWF : WFCommit c)
    (hp : patOkB pat = true) :
    wwMatch pat (fmtLineData c) = wwMatch pat c.message.data := by
  obtain ⟨hne, hhead, hj⟩ := patOkB_spec hp
  unfold wwMatch fmtLineData
  have : c.hash.data ++ dashes ++ c.message.data =
      c.hash.data ++ '-' :: '-' :: '-' :: c.message.data := by
    simp [dashes]
  rw [this]
  exact wwScan_hash_line pat c.hash.data c.message.data hWF.1 hWF.2.1 hne hhead hj

/-! ## Characterising the resolution functions -/
theorem filter_fmtLine (pat : String) (hist : List Commit)
    (hWF : ∀ c ∈ hist, WFCommit c) (hp : patOkB pat.data = true) :
    (hist.map fmtLineData).filter (wwMatch pat.data) =
      (hist.filter (fun c => wwMatch pat.data c.message.data)).map fmtLineData := by
  rw [List.filter_map]
  congr 1
  apply List.filter_congr
  intro c hc
  simp only [Function.comp_apply]
  exact wwMatch_fmtLine (hWF c hc) hp

theorem firstSeg_joinNL (l : List Char) (ls : List (List Char))
    (h : ∀ c ∈ l, c ≠ '\n') : firstSeg ['\n'] (joinNL (l :: ls)) = l := by
  cases ls with
  | nil => simpa [joinNL] using firstSeg_no_sep '\n' l h
  | cons l2 rest =>
      show firstSeg ['\n'] (l ++ '\n' :: joinNL (l2 :: rest)) = l
      exact firstSeg_before_sep '\n' l _ h

theorem joinNL_clean (ls : List (List Char)) (h : ∀ l ∈ ls, ∀ c ∈ l, c ≠ '\x1b') :
    ∀ c ∈ joinNL ls, c ≠ '\x1b' := by
  intro c hc
  rcases mem_joinNL hc with rfl | ⟨l, hl, hcl⟩
  · decide
  · exact h l hl c hcl

theorem getCommitByName_ok (name : String) (s : GitState) (hist : List Commit)
    (hcur : s.branches.lookup s.currentBranch = some hist)
    (hWF : ∀ c ∈ hist, WFCommit c) (hp : patOkB name.data = true)
    (c₀ : Commit) (cs : List Commit)
    (hfil : hist.filter (fun c => wwMatch name.data c.message.data) = c₀ :: cs) :
    getCommitByName name s = .ok ⟨c₀.hash, c₀.message⟩ s [.logGrep name] := by
  have hsub : ∀ c ∈ c₀ :: cs, c ∈ hist := by
    intro c hc
    exact List.mem_of_mem_filter (hfil ▸ hc)
  have hWF₀ : WFCommit c₀ := hWF c₀ (hsub c₀ (List.mem_cons_self c₀ cs))
  have hgrep : execLogGrep name s = .ok ⟨joinNL ((c₀ :: cs).map fmtLineData)⟩ s [.logGrep name] := by
    unfold execLogGrep
    rw [hcur]
    dsimp only
    rw [filter_fmtLine name hist hWF hp, hfil]
    rfl
  have hclean : stripAnsiL (joinNL ((c₀ :: cs).map fmtLineData)) =
      joinNL ((c₀ :: cs).map fmtLineData) := by
    apply stripAnsiL_clean
    apply joinNL_clean
    intro l hl c hc
    obtain ⟨cm, hcm, rfl⟩ := List.mem_map.mp hl
    exact ((hWF cm (hsub cm hcm)).fmtLine_clean c hc).2
  have hfirst : firstSeg ['\n'] (joinNL ((c₀ :: cs).map fmtLineData)) = fmtLineData c₀ := by
    have : (c₀ :: cs).map fmtLineData = fmtLineData c₀ :: cs.map fmtLineData := rfl
    rw [this]
    apply firstSeg_joinNL
    intro c hc
    exact (hWF₀.fmtLine_clean c hc).1
  have hsplit : jsSplit2 dashes (fmtLineData c₀) = (c₀.hash.data, c₀.message.data) := by
    unfold fmtLineData
    apply jsSplit2_line
    · intro c hc
      exact isLowerHex_ne_dash (hWF₀.2.1 c hc)
    · exact hWF₀.2.2.2
  unfold getCommitByName
  simp only [SyncM.bind_def, SyncM.bind, hgrep]
  rw [hclean, hfirst, hsplit]
  simp [SyncM.pure_def, SyncM.pure]

theorem getLatestCommit_ok (s : GitState) (c : Commit)
    (cs : List Commit) (hcur : s.branches.lookup s.currentBranch = some (c :: cs))
    (hWF : WFCommit c) :
    getLatestCommit s = .ok ⟨c.hash, c.message⟩ s [.logLatest] := by
  have hlog : execLogLatest s = .ok ⟨fmtLineData c⟩ s [.logLatest] := by
    unfold execLogLatest
    rw [hcur]
  have hclean : stripAnsiL (fmtLineData c) = fmtLineData c := by
    apply stripAnsiL_clean
    intro x hx
    exact (hWF.fmtLine_clean x hx).2
  have hfirst : firstSeg ['\n'] (fmtLineData c) = fmtLineData c := by
    apply firstSeg_no_sep
    intro x hx
    exact (hWF.fmtLine_clean x hx).1
  have hsplit : jsSplit2 dashes (fmtLineData c) = (c.hash.data, c.message.data) := by
    unfold fmtLineData
    apply jsSplit2_line
    · intro x hx
      exact isLowerHex_ne_dash (hWF.2.1 x hx)
    · exact hWF.2.2.2
  unfold getLatestCommit
  simp only [SyncM.bind_def, SyncM.bind, hlog]
  rw [hclean, hfirst, hsplit]
  simp [SyncM.pure_def, SyncM.pure]

theorem isDeployAbleBranch_spec (s : GitState)
    (h : ∀ c ∈ s.currentBranch.data, c ≠ '\n' ∧ c ≠ '\x1b') :
    isDeployAbleBranch s =
      if s.currentBranch = "v3" then .ok () s [.revParse]
      else .err "You must be on V3 to sync the webclient" s [.revParse] := by
  have hdata : (s.currentBranch ++ "\n").data = s.currentBranch.data ++ ['\n'] := by
    simp [String.data_append]
  have hclean : stripAnsiL (s.currentBranch ++ "\n").data = s.currentBranch.data ++ ['\n'] := by
    rw [hdata]
    apply stripAnsiL_clean
    intro c hc
    rcases List.mem_append.mp hc with hc | hc
    · exact (h c hc).2
    · simp at hc; subst hc; decide
  have hfirst : firstSeg ['\n'] (s.currentBranch.data ++ ['\n']) = s.currentBranch.data := by
    have harr : s.currentBranch.data ++ ['\n'] = s.currentBranch.data ++ '\n' :: [] := rfl
    rw [harr]
    exact firstSeg_before_sep '\n' _ _ (fun c hc => (h c hc).1)
  have heta : (⟨s.currentBranch.data⟩ : String) = s.currentBranch := rfl
  unfold isDeployAbleBranch
  simp only [SyncM.bind_def, SyncM.bind, execRevParse, hclean, hfirst, heta]
  by_cases hv : s.currentBranch = "v3"
  · simp [hv, SyncM.pure_def, SyncM.pure]
  · simp [hv, throwM]

/-- C1: for every current branch other than `v3`, `isDeployAbleBranch` throws
`"You must be on V3 to sync the webclient"`; the driver aborts there, so the
whole run consists of the read-only branch query followed by the failure
prints — no state-mutating command runs and the state is unchanged — and the
process exits 1.  When the branch is `v3`, `isDeployAbleBranch` returns
without error. -/
theorem isDeployAbleBranch_guards_workflow (argvTag : Option String) (s : GitState)
    (hclean : ∀ c ∈ s.currentBranch.data, c ≠ '\n' ∧ c ≠ '\x1b') :
    (s.currentBranch ≠ "v3" →
      runMain argvTag s =
        (1, s, [.revParse, .printErr "You must be on V3 to sync the webclient",
                .printLine "", .printHelp]) ∧
      ((runMain argvTag s).2.2.all (fun e => !isMutatingEv e)) = true) ∧
    (s.currentBranch = "v3" → isDeployAbleBranch s = .ok () s [.revParse]) := by
  constructor
  · intro hne
    have hIs : isDeployAbleBranch s =
        .err "You must be on V3 to sync the webclient" s [.revParse] := by
      rw [isDeployAbleBranch_spec s hclean, if_neg hne]
    have hdrv : driver argvTag s =
        .err "You must be on V3 to sync the webclient" s [.revParse] := by
      unfold driver
      simp only [SyncM.bind_def, SyncM.bind, hIs]
    have hrun : runMain argvTag s =
        (1, s, [.revParse, .printErr "You must be on V3 to sync the webclient",
                .printLine "", .printHelp]) := by
      unfold runMain
      rw [hdrv]
      rfl
    exact ⟨hrun, by rw [hrun]; rfl⟩
  · intro hv
    rw [isDeployAbleBranch_spec s hclean, if_pos hv]

/-- Witness for C1 at the spec's own scenario, branch `feature-x`. -/
theorem isDeployAbleBranch_guards_workflow_witness :
    runMain none sC1 =
      (1, sC1, [.revParse, .printErr "You must be on V3 to sync the webclient",
                .printLine "", .printHelp]) :=
  ((isDeployAbleBranch_guards_workflow none sC1 (by decide)).1 (by decide)).1

/-! ## State lemmas for the synchronisation pipeline -/
theorem execCheckout_ok_state {b : String} {s s' : GitState} {a : Unit} {t : List Ev}
    (h : execCheckout b s = .ok a s' t) : s' = { s with currentBranch := b } := by
  unfold execCheckout at h
  cases hl : s.branches.lookup b with
  | some v => rw [hl] at h; exact (Res.ok.inj h).2.1.symm
  | none => rw [hl] at h; exact absurd h (by simp)

theorem emit_ok_state {e : Ev} {s s' : GitState} {a : Unit} {t : List Ev}
    (h : emit e s = .ok a s' t) : s' = s := by
  unfold emit at h
  exact (Res.ok.inj h).2.1.symm

/-- C4: whenever `syncWebclient` completes successfully, the final state has
`v3` checked out again, whatever happened in between and whatever the two
release pointers were. -/
theorem syncWebclient_ends_on_v3 (wp lp : ReleasePointer) (s s' : GitState)
    (r : Unit) (t : List Ev) (h : syncWebclient wp lp s = .ok r s' t) :
    s'.currentBranch = "v3" := by
  unfold syncWebclient at h
  simp only [SyncM.bind_def] at h
  obtain ⟨_, s₁, _, _, _, h, _⟩ := SyncM.bind_ok h
  obtain ⟨_, s₂, _, _, _, h, _⟩ := SyncM.bind_ok h
  obtain ⟨_, s₃, _, _, _, h, _⟩ := SyncM.bind_ok h
  obtain ⟨_, s₄, _, _, _, h, _⟩ := SyncM.bind_ok h
  obtain ⟨_, s₅, _, _, _, h, _⟩ := SyncM.bind_ok h
  obtain ⟨_, s₆, _, _, _, h, _⟩ := SyncM.bind_ok h
  obtain ⟨_, s₇, _, _, hco, h, _⟩ := SyncM.bind_ok h
  have hs₇ : s₇ = { s₆ with currentBranch := "v3" } := execCheckout_ok_state hco
  have hs' : s' = s₇ := emit_ok_state h
  rw [hs', hs₇]

/-- Witness for C4: a complete successful `syncWebclient` run (the nonempty
range `cOld.hash..cNew.hash` replays `cNew` onto `public`), which indeed
ends back on `v3`. -/
theorem syncWebclient_ends_on_v3_witness :
    syncWebclient ⟨hashC, "Release one"⟩ ⟨hashA, "Release two"⟩ sFull =
      .ok ()
        { currentBranch := "v3"
          branches := [("v3", [cNew, cOld]), ("public", [cNew, cB])]
          remotes := ["origin", "webclient"]
          publicRemoteHist := [cNew, cB] }
        [.checkout "v3", .pull "origin" "v3", .checkout "public", .pull "webclient" "public",
         .cherryPick hashC hashA, .push "webclient" "public", .checkout "v3",
         .printLine "✓ Sync webclient."] ∧
    ({ currentBranch := "v3"
       branches := [("v3", [cNew, cOld]), ("public", [cNew, cB])]
       remotes := ["origin", "webclient"]
       publicRemoteHist := [cNew, cB] } : GitState).currentBranch = "v3" := by
  have hrun : syncWebclient ⟨hashC, "Release one"⟩ ⟨hashA, "Release two"⟩ sFull =
      .ok ()
        { currentBranch := "v3"
          branches := [("v3", [cNew, cOld]), ("public", [cNew, cB])]
          remotes := ["origin", "webclient"]
          publicRemoteHist := [cNew, cB] }
        [.checkout "v3", .pull "origin" "v3", .checkout "public", .pull "webclient" "public",
         .cherryPick hashC hashA, .push "webclient" "public", .checkout "v3",
         .printLine "✓ Sync webclient."] := by decide
  exact ⟨hrun, syncWebclient_ends_on_v3 _ _ sFull _ () _ hrun⟩

theorem dropWhile_head_false {α : Type} {p : α → Bool} :
    ∀ (l : List α) (c : α) (rest : List α), l.dropWhile p = c :: rest → p c = false := by
  intro l
  induction l with
  | nil => intro c rest h; simp [List.dropWhile] at h
  | cons x xs ih =>
      intro c rest h
      by_cases hp : p x
      · rw [List.dropWhile_cons_of_pos hp] at h
        exact ih c rest h
      · rw [List.dropWhile_cons_of_neg hp] at h
        obtain ⟨rfl, -⟩ := List.cons.inj h
        simpa using hp

theorem rangeOf_self (hist : List Commit) (a : String) : rangeOf hist a a = [] := by
  unfold rangeOf
  cases hd : hist.dropWhile (fun c => c.hash ≠ a) with
  | nil => rfl
  | cons c rest =>
      have hc := dropWhile_head_false hist c rest hd
      have hceq : c.hash = a := by simpa using hc
      rw [List.takeWhile_cons]
      simp [hceq]

theorem lookup_updateBranch_ne (l : List (String × List Commit)) (b k : String)
    (v : List Commit) (hk : k ≠ b) :
    (updateBranch l b v).lookup k = l.lookup k := by
  induction l with
  | nil => rfl
  | cons p rest ih =>
      obtain ⟨b₁, v₁⟩ := p
      by_cases hb : b₁ = b
      · subst hb
        have hkb : (k == b₁) = false := beq_eq_false_iff_ne.mpr hk
        simp only [updateBranch, List.map_cons, List.lookup_cons, hkb] at ih ⊢
        simpa [List.lookup_cons, hkb] using ih
      · have hif : (if (b₁, v₁).1 = b then ((b₁, v₁).1, v) else (b₁, v₁)) = (b₁, v₁) := by
          simp [hb]
        simp only [updateBranch, List.map_cons, hif, List.lookup_cons] at ih ⊢
        cases hkb : (k == b₁) with
        | true => rfl
        | false => simpa using ih

theorem lookup_updateBranch_self (l : List (String × List Commit)) (b : String)
    (v : List Commit) :
    (updateBranch l b v).lookup b = (l.lookup b).map (fun _ => v) := by
  induction l with
  | nil => rfl
  | cons p rest ih =>
      obtain ⟨b₁, v₁⟩ := p
      by_cases hb : b₁ = b
      · subst hb
        have hkb : (b₁ == b₁) = true := beq_self_eq_true b₁
        simp only [updateBranch, List.map_cons, List.lookup_cons] at ih ⊢
        simp [List.lookup_cons, hkb]
      · have hif : (if (b₁, v₁).1 = b then ((b₁, v₁).1, v) else (b₁, v₁)) = (b₁, v₁) := by
          simp [hb]
        have hkb : (b == b₁) = false := beq_eq_false_iff_ne.mpr (Ne.symm hb)
        simp only [updateBranch, List.map_cons, hif, List.lookup_cons, hkb] at ih ⊢
        simpa using ih

theorem lookup_updateBranch (l : List (String × List Commit)) (b : String)
    (v : List Commit) (h : l.lookup b = some v) (k : String) :
    (updateBranch l b v).lookup k = l.lookup k := by
  by_cases hk : k = b
  · subst hk
    rw [lookup_updateBranch_self, h]
    rfl
  · exact lookup_updateBranch_ne l b k v hk

/-- C8 counterexample: with equal pointers the cherry-pick range is empty,
and `syncWebclient` does not treat this as a success — git rejects the
empty commit set, `commandeVerbose`'s promise rejects, and the error
propagates out of `syncWebclient`, leaving the clone on `public`. -/
theorem syncWebclient_empty_range_counterexample :
    rangeOf ((sFull.branches.lookup "v3").getD []) hashA hashA = [] ∧
    syncWebclient ⟨hashA, "Release two"⟩ ⟨hashA, "Release two"⟩ sFull =
      .err "error: empty commit set passed" { sFull with currentBranch := "public" }
        [.checkout "v3", .pull "origin" "v3", .checkout "public",
         .pull "webclient" "public", .cherryPick hashA hashA] :=
  ⟨by decide, by decide⟩

/-- C8 amended: when the two resolved release pointers carry the same hash,
the cherry-pick range `webclientHash..angularHash` passed to the
version-control system is empty, and git rejects the empty commit set
(`error: empty commit set passed`, nonzero exit; `--allow-empty` only
tolerates empty *commits*, not an empty set).  `syncWebclient` therefore
fails like any other command failure, right after the two checkout/pull
pairs: the error propagates to the driver (which prints it and the help
text and exits 1), and the clone is left on the `public` branch. -/
theorem syncWebclient_equal_pointers (s : GitState) (wp lp : ReleasePointer)
    (h3 : List Commit) (hp2 : List Commit)
    (heq : wp.hash = lp.hash)
    (hv3 : s.branches.lookup "v3" = some h3)
    (hpub : s.branches.lookup "public" = some hp2)
    (horigin : "origin" ∈ s.remotes) (hweb : "webclient" ∈ s.remotes) :
    rangeOf ((s.branches.lookup "v3").getD []) wp.hash lp.hash = [] ∧
    syncWebclient wp lp s =
      .err "error: empty commit set passed" { s with currentBranch := "public" }
        [.checkout "v3", .pull "origin" "v3", .checkout "public",
         .pull "webclient" "public", .cherryPick wp.hash lp.hash] := by
  have hrange : rangeOf ((s.branches.lookup "v3").getD []) wp.hash lp.hash = [] := by
    rw [heq]
    exact rangeOf_self _ _
  have h1 : execCheckout "v3" s = .ok () { s with currentBranch := "v3" } [.checkout "v3"] := by
    unfold execCheckout
    rw [hv3]
  have h2 : execPull "origin" "v3" { s with currentBranch := "v3" } =
      .ok () { s with currentBranch := "v3" } [.pull "origin" "v3"] := by
    simp [execPull, horigin]
  have h3c : execCheckout "public" { s with currentBranch := "v3" } =
      .ok () { s with currentBranch := "public" } [.checkout "public"] := by
    simp [execCheckout, hpub]
  have h4 : execPull "webclient" "public" { s with currentBranch := "public" } =
      .ok () { s with currentBranch := "public" } [.pull "webclient" "public"] := by
    simp [execPull, hweb]
  have h5 : execCherryPick wp.hash lp.hash { s with currentBranch := "public" } =
      .err "error: empty commit set passed" { s with currentBranch := "public" }
        [.cherryPick wp.hash lp.hash] := by
    unfold execCherryPick
    simp only [heq, rangeOf_self]
  have hrun : syncWebclient wp lp s =
      .err "error: empty commit set passed" { s with currentBranch := "public" }
        [.checkout "v3", .pull "origin" "v3", .checkout "public",
         .pull "webclient" "public", .cherryPick wp.hash lp.hash] := by
    unfold syncWebclient
    simp only [SyncM.bind_def, SyncM.bind, h1, h2, h3c, h4, h5]
    simp [heq]
  exact ⟨hrange, hrun⟩

/-- Witness for the amended C8: equal pointers on the concrete state, where
the empty-range cherry-pick failure is reached and surfaced. -/
theorem syncWebclient_equal_pointers_witness :
    rangeOf ((sFull.branches.lookup "v3").getD []) hashB hashB = [] ∧
    syncWebclient ⟨hashB, "Release one"⟩ ⟨hashB, "Release one"⟩ sFull =
      .err "error: empty commit set passed" { sFull with currentBranch := "public" }
        [.checkout "v3", .pull "origin" "v3", .checkout "public",
         .pull "webclient" "public", .cherryPick hashB hashB] :=
  syncWebclient_equal_pointers sFull ⟨hashB, "Release one"⟩ ⟨hashB, "Release one"⟩
    [cNew, cOld] [cB] rfl (by decide) (by decide) (by decide) (by decide)

theorem containsSeq_webclient_self : containsSeq "webclient".data "webclient".data = true := by
  decide

/-- C5: `hasPublicRemote` is idempotent.  When the remote-existence check
passes, no setup command runs at all (the trace is the read-only check plus
the success print); for any state, running it twice issues the
`addPublicRemote` bootstrap commands at most once (at most 4 bootstrap
commands, at most one `git remote add`); and whenever a first call
succeeds, the second call's check passes without re-running setup. -/
theorem hasPublicRemote_idempotent (s : GitState) :
    (remoteCheckPasses s = true →
      hasPublicRemote s = .ok () s [.remoteList, .printLine (successMsg "Public remote exists")]) ∧
    ((resTrace ((SyncM.bind hasPublicRemote (fun _ => hasPublicRemote)) s)).countP
        isBootstrapEv ≤ 4 ∧
     (resTrace ((SyncM.bind hasPublicRemote (fun _ => hasPublicRemote)) s)).countP
        isRemoteAddEv ≤ 1) ∧
    (∀ s₁ t, hasPublicRemote s = .ok () s₁ t →
      hasPublicRemote s₁ = .ok () s₁ [.remoteList, .printLine (successMsg "Public remote exists")]) := by
  cases hgrep : s.remotes.any (fun r => containsSeq "webclient".data r.data) with
  | true =>
      have hOk : hasPublicRemote s =
          .ok () s [.remoteList, .printLine (successMsg "Public remote exists")] := by
        unfold hasPublicRemote tryCatchM
        simp [SyncM.bind_def, SyncM.bind, execRemoteGrepWebclient, hgrep, emit]
      refine ⟨fun _ => hOk, ?_, ?_⟩
      · unfold SyncM.bind
        rw [hOk]
        dsimp only
        rw [hOk]
        dsimp only [resTrace]
        decide
      · intro s₁ t h
        rw [hOk] at h
        obtain ⟨-, rfl, -⟩ := Res.ok.inj h
        exact hOk
  | false =>
      have hwebNot : "webclient" ∉ s.remotes := by
        intro hmem
        have : s.remotes.any (fun r => containsSeq "webclient".data r.data) = true :=
          List.any_eq_true.mpr ⟨"webclient", hmem, containsSeq_webclient_self⟩
        rw [hgrep] at this
        exact absurd this (by simp)
      have hGrepErr : execRemoteGrepWebclient s =
          .err "Command failed: git remote | grep webclient" s [.remoteList] := by
        simp [execRemoteGrepWebclient, hgrep]
      have hAdd : execRemoteAdd "webclient" "git@github.com:ProtonMail/WebClient.git" s =
          .ok () { s with remotes := s.remotes ++ ["webclient"] }
            [.remoteAdd "webclient" "git@github.com:ProtonMail/WebClient.git"] := by
        simp [execRemoteAdd, hwebNot]
      have hmem2 : "webclient" ∈ s.remotes ++ ["webclient"] := by simp
      have hFetch : execFetch "webclient" { s with remotes := s.remotes ++ ["webclient"] } =
          .ok () { s with remotes := s.remotes ++ ["webclient"] } [.fetch "webclient"] := by
        simp [execFetch, hmem2]
      cases hlp : s.branches.lookup "public" with
      | some v =>
          have hTrack : execCheckoutTrack "public" "webclient/public"
              { s with remotes := s.remotes ++ ["webclient"] } =
              .err "fatal: a branch named public already exists"
                { s with remotes := s.remotes ++ ["webclient"] }
                [.checkoutTrack "public" "webclient/public"] := by
            unfold execCheckoutTrack
            rw [show ({ s with remotes := s.remotes ++ ["webclient"] } : GitState).branches.lookup
                "public" = some v from hlp]
            rfl
          have hHas : hasPublicRemote s =
              .err "fatal: a branch named public already exists"
                { s with remotes := s.remotes ++ ["webclient"] }
                [.remoteList, .remoteAdd "webclient" "git@github.com:ProtonMail/WebClient.git",
                 .configPush "webclient", .fetch "webclient",
                 .checkoutTrack "public" "webclient/public"] := by
            unfold hasPublicRemote tryCatchM addPublicRemote
            simp only [SyncM.bind_def, SyncM.bind, hGrepErr, hAdd, execConfigPush, hFetch, hTrack]
            rfl
          refine ⟨?_, ?_, ?_⟩
          · intro hpass
            rw [show remoteCheckPasses s =
                s.remotes.any (fun r => containsSeq "webclient".data r.data) from rfl, hgrep]
              at hpass
            exact absurd hpass (by simp)
          · unfold SyncM.bind
            rw [hHas]
            dsimp only [resTrace]
            decide
          · intro s₁ t h
            rw [hHas] at h
            exact absurd h (by simp)
      | none =>
          have hTrack : execCheckoutTrack "public" "webclient/public"
              { s with remotes := s.remotes ++ ["webclient"] } =
              .ok ()
                { s with
                  remotes := s.remotes ++ ["webclient"]
                  branches := ("public", s.publicRemoteHist) :: s.branches
                  currentBranch := "public" }
                [.checkoutTrack "public" "webclient/public"] := by
            unfold execCheckoutTrack
            rw [show ({ s with remotes := s.remotes ++ ["webclient"] } : GitState).branches.lookup
                "public" = none from hlp]
            simp [hmem2]
          have hHas : hasPublicRemote s =
              .ok ()
                { s with
                  remotes := s.remotes ++ ["webclient"]
                  branches := ("public", s.publicRemoteHist) :: s.branches
                  currentBranch := "public" }
                [.remoteList, .remoteAdd "webclient" "git@github.com:ProtonMail/WebClient.git",
                 .configPush "webclient", .fetch "webclient",
                 .checkoutTrack "public" "webclient/public",
                 .printLine (successMsg "Add public remote")] := by
            unfold hasPublicRemote tryCatchM addPublicRemote
            simp only [SyncM.bind_def, SyncM.bind, hGrepErr, hAdd, execConfigPush, hFetch, hTrack,
              emit]
            rfl
          have hany2 : (({ s with
                  remotes := s.remotes ++ ["webclient"]
                  branches := ("public", s.publicRemoteHist) :: s.branches
                  currentBranch := "public" } : GitState).remotes).any
                (fun r => containsSeq "webclient".data r.data) = true :=
            List.any_eq_true.mpr ⟨"webclient", hmem2, containsSeq_webclient_self⟩
          have hOk2 : hasPublicRemote
              { s with
                remotes := s.remotes ++ ["webclient"]
                branches := ("public", s.publicRemoteHist) :: s.branches
                currentBranch := "public" } =
              .ok ()
                { s with
                  remotes := s.remotes ++ ["webclient"]
                  branches := ("public", s.publicRemoteHist) :: s.branches
                  currentBranch := "public" }
                [.remoteList, .printLine (successMsg "Public remote exists")] := by
            unfold hasPublicRemote tryCatchM
            simp [SyncM.bind_def, SyncM.bind, execRemoteGrepWebclient, hany2, emit]
          refine ⟨?_, ?_, ?_⟩
          · intro hpass
            rw [show remoteCheckPasses s =
                s.remotes.any (fun r => containsSeq "webclient".data r.data) from rfl, hgrep]
              at hpass
            exact absurd hpass (by simp)
          · unfold SyncM.bind
            rw [hHas]
            dsimp only
            rw [hOk2]
            dsimp only [resTrace]
            decide
          · intro s₁ t h
            rw [hHas] at h
            obtain ⟨-, rfl, -⟩ := Res.ok.inj h
            exact hOk2

/-- Witness for C5: on a state whose remotes already include `webclient`,
the check passes and no setup command runs. -/
theorem hasPublicRemote_idempotent_witness :
    hasPublicRemote sFull =
      .ok () sFull [.remoteList, .printLine (successMsg "Public remote exists")] :=
  (hasPublicRemote_idempotent sFull).1 (by decide)

/-- C2 counterexample: `getAngularRelease` greps for the module-global
`argv.tag`, not for its `name` argument.  With `--tag=other` recorded
globally and the filter argument `"3.12.24"` supplied, it returns the
commit matched by `"other"`, whose subject does not contain `"3.12.24"` as a
whole word, although a more recent commit does. -/
theorem getAngularRelease_filter_counterexample :
    getAngularRelease (some "other") (some "3.12.24") sC2 =
      .ok ⟨hashB, "contains other stuff"⟩ sC2 [.logGrep "other"] ∧
    wwMatch "3.12.24".data "contains other stuff".data = false ∧
    wwMatch "3.12.24".data "Release 3.12.24 fixes".data = true := by
  refine ⟨by decide, by decide, by decide⟩

/-- C2 amended: with no filter, `getAngularRelease` returns the single most
recent commit's (hash, label) directly, performing no history search; with a
truthy filter supplied it delegates to `getCommitByName` on the global
`--tag` value (which coincides with the filter at the script's only call
site), and when `--tag` equals the supplied filter it returns the
(hash, label) of the most recent commit whose subject contains that filter
as a whole word — for well-formed histories and filters whose whole-word
match cannot fall inside the hash field of the `'%H---%s'` log line. -/
theorem getAngularRelease_spec :
    (∀ (tagOpt : Option String) (s : GitState) (c : Commit) (cs : List Commit),
      s.branches.lookup s.currentBranch = some (c :: cs) → WFCommit c →
      getAngularRelease tagOpt none s = .ok ⟨c.hash, c.message⟩ s [.logLatest]) ∧
    (∀ (tagOpt nameOpt : Option String) (s : GitState), truthy nameOpt = true →
      getAngularRelease tagOpt nameOpt s = getCommitByName (interpolate tagOpt) s) ∧
    (∀ (tag : String) (s : GitState) (hist : List Commit) (c₀ : Commit) (cs : List Commit),
      s.branches.lookup s.currentBranch = some hist → (∀ c ∈ hist, WFCommit c) →
      patOkB tag.data = true →
      hist.filter (fun c => wwMatch tag.data c.message.data) = c₀ :: cs →
      getAngularRelease (some tag) (some tag) s =
        .ok ⟨c₀.hash, c₀.message⟩ s [.logGrep tag]) := by
  refine ⟨?_, ?_, ?_⟩
  · intro tagOpt s c cs hcur hWF
    have : getAngularRelease tagOpt none s = getLatestCommit s := rfl
    rw [this]
    exact getLatestCommit_ok s c cs hcur hWF
  · intro tagOpt nameOpt s htr
    unfold getAngularRelease
    rw [htr]
    rfl
  · intro tag s hist c₀ cs hcur hWF hpat hfil
    have hne : tag.data ≠ [] := (patOkB_spec hpat).1
    have hemp : tag.isEmpty = false := by
      by_contra hcon
      have : tag.isEmpty = true := by
        cases htag : tag.isEmpty with
        | true => rfl
        | false => exact absurd htag hcon
      have : tag = "" := (String.isEmpty_iff tag).mp this
      rw [this] at hne
      exact hne rfl
    have htr : truthy (some tag) = true := by
      simp [truthy, hemp]
    unfold getAngularRelease
    rw [htr]
    dsimp only [interpolate]
    exact getCommitByName_ok tag s hist hcur hWF hpat c₀ cs hfil

/-- Witness for the amended C2: filter `"Release"` equal to `--tag`. -/
theorem getAngularRelease_spec_witness :
    getAngularRelease (some "Release") (some "Release") sFull =
      .ok ⟨hashA, "Release two"⟩ sFull [.logGrep "Release"] :=
  getAngularRelease_spec.2.2 "Release" sFull [cNew, cOld] cNew [cOld] (by decide) (by decide)
    (by decide) (by decide)

/-- C3: `getWebclientRelease` performs exactly: check out the public mirror
branch, read the most recent commit's subject (`%s`, not its hash) there,
check the integration branch `v3` back out, then search the full (now
current) `v3` history for a commit whose subject contains that label as a
whole word, and return that `v3` commit's (hash, label) — correlation is by
message text, not commit identity (the returned hash is the `v3` one, not
the public-branch one). -/
theorem getWebclientRelease_spec (s : GitState) (p₀ : Commit) (ps vhist : List Commit)
    (c₀ : Commit) (cs : List Commit)
    (hpub : s.branches.lookup "public" = some (p₀ :: ps))
    (hv3 : s.branches.lookup "v3" = some vhist)
    (hWFp : ∀ ch ∈ p₀.message.data, ch ≠ '\n' ∧ ch ≠ '\x1b')
    (hWFv : ∀ c ∈ vhist, WFCommit c)
    (hpat : patOkB p₀.message.data = true)
    (hfil : vhist.filter (fun c => wwMatch p₀.message.data c.message.data) = c₀ :: cs) :
    getWebclientRelease s =
      .ok ⟨c₀.hash, c₀.message⟩ { s with currentBranch := "v3" }
        [.checkout "public", .logLatestSubject, .checkout "v3", .logGrep p₀.message] := by
  have h1 : execCheckout "public" s =
      .ok () { s with currentBranch := "public" } [.checkout "public"] := by
    unfold execCheckout
    rw [hpub]
  have h2 : execLogLatestSubject { s with currentBranch := "public" } =
      .ok p₀.message { s with currentBranch := "public" } [.logLatestSubject] := by
    unfold execLogLatestSubject
    rw [show ({ s with currentBranch := "public" } : GitState).branches.lookup
      ({ s with currentBranch := "public" } : GitState).currentBranch = some (p₀ :: ps) from hpub]
  have h3 : execCheckout "v3" { s with currentBranch := "public" } =
      .ok () { s with currentBranch := "v3" } [.checkout "v3"] := by
    unfold execCheckout
    rw [show ({ s with currentBranch := "public" } : GitState).branches.lookup "v3" =
      some vhist from hv3]
  have houtput : (⟨firstSeg ['\n'] (stripAnsiL p₀.message.data)⟩ : String) = p₀.message := by
    rw [stripAnsiL_clean _ (fun c hc => (hWFp c hc).2),
      firstSeg_no_sep '\n' _ (fun c hc => (hWFp c hc).1)]
  have h4 : getCommitByName p₀.message { s with currentBranch := "v3" } =
      .ok ⟨c₀.hash, c₀.message⟩ { s with currentBranch := "v3" } [.logGrep p₀.message] :=
    getCommitByName_ok p₀.message { s with currentBranch := "v3" } vhist hv3 hWFv hpat c₀ cs hfil
  unfold getWebclientRelease
  simp only [SyncM.bind_def, SyncM.bind, h1, h2, h3, houtput, h4]
  rfl

/-- Witness for C3: the public head `cB` (hash `b…b`) is correlated back to
the `v3` commit `cOld` (hash `c…c`) purely through the shared subject. -/
theorem getWebclientRelease_spec_witness :
    getWebclientRelease sFull =
      .ok ⟨hashC, "Release one"⟩ sFull
        [.checkout "public", .logLatestSubject, .checkout "v3", .logGrep "Release one"] :=
  getWebclientRelease_spec sFull cB [] [cNew, cOld] cOld [] (by decide) (by decide) (by decide)
    (by decide) (by decide) (by decide)

/-- C7 amended: a failed resolution raises.  When the whole-word search of
`getCommitByName` matches no log line, the `grep` of the pipeline exits 1,
the promisified `exec` rejects, and the error propagates out of the
resolution call (it does not return an empty-string pointer); likewise
`getLatestCommit` on an empty history propagates the `git log` failure.
The destructuring defaults of the source only guarantee that a *successful*
resolution always carries both fields as (possibly empty) strings. -/
theorem resolution_failure_raises (s : GitState) (name : String) (hist : List Commit)
    (hcur : s.branches.lookup s.currentBranch = some hist) :
    ((hist.map fmtLineData).filter (wwMatch name.data) = [] →
      getCommitByName name s =
        .err "Command failed: git log | grep" s [.logGrep name]) ∧
    (hist = [] →
      getLatestCommit s = .err "Command failed: git log -1" s [.logLatest]) := by
  constructor
  · intro hmatch
    unfold getCommitByName
    have hgrep : execLogGrep name s =
        .err "Command failed: git log | grep" s [.logGrep name] := by
      unfold execLogGrep
      rw [hcur]
      dsimp only
      rw [hmatch]
    simp only [SyncM.bind_def, SyncM.bind, hgrep]
  · intro hnil
    subst hnil
    unfold getLatestCommit
    have hlog : execLogLatest s = .err "Command failed: git log -1" s [.logLatest] := by
      unfold execLogLatest
      rw [hcur]
    simp only [SyncM.bind_def, SyncM.bind, hlog]

/-- C7 counterexample: resolution failure (no commit matching `"zzz"`) is a
raised error, not a returned `{hash: '', label: ''}` pointer — refuting the
claim that no error is raised at resolution time. -/
theorem resolution_failure_counterexample :
    getCommitByName "zzz" sFull =
      .err "Command failed: git log | grep" sFull [.logGrep "zzz"] := by
  decide

/-- Witness for the amended C7: both failure modes at concrete states. -/
theorem resolution_failure_raises_witness :
    getCommitByName "nomatch" sFull =
      .err "Command failed: git log | grep" sFull [.logGrep "nomatch"] ∧
    getLatestCommit sC1 = .err "Command failed: git log -1" sC1 [.logLatest] :=
  ⟨(resolution_failure_raises sFull "nomatch" [cNew, cOld] (by decide)).1 (by decide),
   (resolution_failure_raises sC1 "x" [] (by decide)).2 rfl⟩

theorem cleanM_bind {α β : Type} {m : SyncM α} {f : α → SyncM β}
    (hm : CleanM m) (hf : ∀ a, CleanM (f a)) : CleanM (SyncM.bind m f) := by
  intro s
  unfold SyncM.bind
  cases hms : m s with
  | err e s' t =>
      have := hm s
      rw [hms] at this
      exact this
  | ok a s' t =>
      have h1 := hm s
      rw [hms] at h1
      dsimp only
      cases hfs : f a s' with
      | err e s'' t' =>
          have h2 := hf a s'
          rw [hfs] at h2
          simp only [resTrace] at h1 h2 ⊢
          rw [List.all_append, h1, h2]
          rfl
      | ok b s'' t' =>
          have h2 := hf a s'
          rw [hfs] at h2
          simp only [resTrace] at h1 h2 ⊢
          rw [List.all_append, h1, h2]
          rfl

theorem cleanM_tryCatch {α : Type} {m h : SyncM α} (hm : CleanM m) (hh : CleanM h) :
    CleanM (tryCatchM m h) := by
  intro s
  unfold tryCatchM
  cases hms : m s with
  | ok a s' t =>
      have := hm s
      rw [hms] at this
      exact this
  | err e s' t =>
      have h1 := hm s
      rw [hms] at h1
      dsimp only
      cases hhs : h s' with
      | err e2 s'' t' =>
          have h2 := hh s'
          rw [hhs] at h2
          simp only [resTrace] at h1 h2 ⊢
          rw [List.all_append, h1, h2]
          rfl
      | ok b s'' t' =>
          have h2 := hh s'
          rw [hhs] at h2
          simp only [resTrace] at h1 h2 ⊢
          rw [List.all_append, h1, h2]
          rfl

theorem cleanM_pure {α : Type} (a : α) : CleanM (SyncM.pure a) := fun _ => rfl

theorem cleanM_throwM {α : Type} (msg : String) : CleanM (throwM msg : SyncM α) :=
  fun _ => rfl

theorem cleanM_execRevParse : CleanM execRevParse := fun _ => rfl

theorem cleanM_execLogLatest : CleanM execLogLatest := by
  intro s
  unfold execLogLatest
  cases s.branches.lookup s.currentBranch with
  | none => rfl
  | some hist => cases hist <;> rfl

theorem cleanM_execLogLatestSubject : CleanM execLogLatestSubject := by
  intro s
  unfold execLogLatestSubject
  cases s.branches.lookup s.currentBranch with
  | none => rfl
  | some hist => cases hist <;> rfl

theorem cleanM_execLogGrep (pat : String) : CleanM (execLogGrep pat) := by
  intro s
  unfold execLogGrep
  cases s.branches.lookup s.currentBranch with
  | none => rfl
  | some hist =>
      dsimp only
      cases (hist.map fmtLineData).filter (wwMatch pat.data) <;> rfl

theorem cleanM_execRemoteGrepWebclient : CleanM execRemoteGrepWebclient := by
  intro s
  unfold execRemoteGrepWebclient
  split <;> rfl

theorem cleanM_execCheckout (b : String) : CleanM (execCheckout b) := by
  intro s
  unfold execCheckout
  cases s.branches.lookup b <;> rfl

theorem cleanM_execRemoteAdd (n u : String) : CleanM (execRemoteAdd n u) := by
  intro s
  unfold execRemoteAdd
  split <;> rfl

theorem cleanM_execConfigPush (n : String) : CleanM (execConfigPush n) := fun _ => rfl

theorem cleanM_execFetch (n : String) : CleanM (execFetch n) := by
  intro s
  unfold execFetch
  split <;> rfl

theorem cleanM_execCheckoutTrack (b src : String) : CleanM (execCheckoutTrack b src) := by
  intro s
  unfold execCheckoutTrack
  cases s.branches.lookup b with
  | some v => rfl
  | none =>
      dsimp only
      split <;> rfl

theorem cleanM_execPull (r b : String) : CleanM (execPull r b) := by
  intro s
  unfold execPull
  split <;> rfl

theorem cleanM_execCherryPick (a b : String) : CleanM (execCherryPick a b) := by
  intro s
  unfold execCherryPick
  cases rangeOf ((s.branches.lookup "v3").getD []) a b <;> rfl

theorem cleanM_execPush (r b : String) : CleanM (execPush r b) := by
  intro s
  unfold execPush
  split <;> rfl

theorem cleanM_emit_printLine (msg : String) : CleanM (emit (.printLine msg)) :=
  fun _ => rfl

theorem cleanM_emit_printReleases (a w : ReleasePointer) :
    CleanM (emit (.printReleases a w)) := fun _ => rfl

theorem cleanM_getLatestCommit : CleanM getLatestCommit := by
  unfold getLatestCommit
  exact cleanM_bind cleanM_execLogLatest (fun a => cleanM_pure _)

theorem cleanM_getCommitByName (name : String) : CleanM (getCommitByName name) := by
  unfold getCommitByName
  exact cleanM_bind (cleanM_execLogGrep name) (fun a => cleanM_pure _)

theorem cleanM_getAngularRelease (t n : Option String) : CleanM (getAngularRelease t n) := by
  unfold getAngularRelease
  cases htr : truthy n with
  | true =>
      simp only [htr, if_true]
      exact cleanM_getCommitByName _
  | false =>
      simp only [htr, Bool.false_eq_true, if_false]
      exact cleanM_getLatestCommit

theorem cleanM_getWebclientRelease : CleanM getWebclientRelease := by
  unfold getWebclientRelease
  exact cleanM_bind (cleanM_execCheckout _) (fun _ =>
    cleanM_bind cleanM_execLogLatestSubject (fun stdout =>
      cleanM_bind (cleanM_execCheckout _) (fun _ => cleanM_getCommitByName _)))

theorem cleanM_addPublicRemote : CleanM addPublicRemote := by
  unfold addPublicRemote
  exact cleanM_bind (cleanM_execRemoteAdd _ _) (fun _ =>
    cleanM_bind (cleanM_execConfigPush _) (fun _ =>
      cleanM_bind (cleanM_execFetch _) (fun _ =>
        cleanM_bind (cleanM_execCheckoutTrack _ _) (fun _ => cleanM_emit_printLine _))))

theorem cleanM_hasPublicRemote : CleanM hasPublicRemote := by
  unfold hasPublicRemote
  exact cleanM_tryCatch
    (cleanM_bind cleanM_execRemoteGrepWebclient (fun _ => cleanM_emit_printLine _))
    cleanM_addPublicRemote

theorem cleanM_syncWebclient (wp lp : ReleasePointer) : CleanM (syncWebclient wp lp) := by
  unfold syncWebclient
  exact cleanM_bind (cleanM_execCheckout _) (fun _ =>
    cleanM_bind (cleanM_execPull _ _) (fun _ =>
      cleanM_bind (cleanM_execCheckout _) (fun _ =>
        cleanM_bind (cleanM_execPull _ _) (fun _ =>
          cleanM_bind (cleanM_execCherryPick _ _) (fun _ =>
            cleanM_bind (cleanM_execPush _ _) (fun _ =>
              cleanM_bind (cleanM_execCheckout _) (fun _ => cleanM_emit_printLine _)))))))

theorem cleanM_isDeployAbleBranch : CleanM isDeployAbleBranch := by
  unfold isDeployAbleBranch
  refine cleanM_bind cleanM_execRevParse (fun stdout => ?_)
  intro s
  dsimp only
  split
  · exact cleanM_throwM _ s
  · exact cleanM_pure _ s

theorem cleanM_driver (t : Option String) : CleanM (driver t) := by
  unfold driver
  exact cleanM_bind cleanM_isDeployAbleBranch (fun _ =>
    cleanM_bind cleanM_hasPublicRemote (fun _ =>
      cleanM_bind (cleanM_getAngularRelease _ _) (fun angularRelease =>
        cleanM_bind cleanM_getWebclientRelease (fun webclientRelease =>
          cleanM_bind (cleanM_emit_printLine _) (fun _ =>
            cleanM_bind (cleanM_emit_printReleases _ _) (fun _ =>
              cleanM_bind (cleanM_emit_printLine _) (fun _ =>
                cleanM_syncWebclient _ _)))))))

/-- C6: for every run of the workflow, if every step succeeds the process
exits 0 and neither an error message nor the help text is printed; if any
step fails, the process prints the failing step's error message, then a
blank line, then the full help text — in that order, at the very end of the
output — and exits 1.  The cleanliness conjunct shows the error/help prints
come only from the catch block. -/
theorem runMain_exit_codes (argvTag : Option String) (s : GitState) :
    (∀ (r : Unit) (s' : GitState) (t : List Ev), driver argvTag s = .ok r s' t →
      runMain argvTag s = (0, s', t) ∧ t.all evClean = true) ∧
    (∀ (m : String) (s' : GitState) (t : List Ev), driver argvTag s = .err m s' t →
      runMain argvTag s = (1, s', t ++ [.printErr m, .printLine "", .printHelp]) ∧
      t.all evClean = true) := by
  constructor
  · intro r s' t h
    have hclean := cleanM_driver argvTag s
    rw [h] at hclean
    refine ⟨?_, hclean⟩
    unfold runMain
    rw [h]
  · intro m s' t h
    have hclean := cleanM_driver argvTag s
    rw [h] at hclean
    refine ⟨?_, hclean⟩
    unfold runMain
    rw [h]

/-- Witness for C6: the full successful run on `sFull` exits 0 and prints no
error and no help text. -/
theorem runMain_exit_codes_witness :
    runMain none sFull =
      (0,
        { currentBranch := "v3"
          branches := [("v3", [cNew, cOld]), ("public", [cNew, cB])]
          remotes := ["origin", "webclient"]
          publicRemoteHist := [cNew, cB] },
        [.revParse, .remoteList, .printLine (successMsg "Public remote exists"), .logLatest,
         .checkout "public", .logLatestSubject, .checkout "v3", .logGrep "Release one",
         .printLine "", .printReleases ⟨hashA, "Release two"⟩ ⟨hashC, "Release one"⟩,
         .printLine "", .checkout "v3", .pull "origin" "v3", .checkout "public",
         .pull "webclient" "public", .cherryPick hashC hashA, .push "webclient" "public",
         .checkout "v3", .printLine (successMsg "Sync webclient")]) ∧
    ([Ev.revParse, .remoteList, .printLine (successMsg "Public remote exists"), .logLatest,
      .checkout "public", .logLatestSubject, .checkout "v3", .logGrep "Release one",
      .printLine "", .printReleases ⟨hashA, "Release two"⟩ ⟨hashC, "Release one"⟩,
      .printLine "", .checkout "v3", .pull "origin" "v3", .checkout "public",
      .pull "webclient" "public", .cherryPick hashC hashA, .push "webclient" "public",
      .checkout "v3", .printLine (successMsg "Sync webclient")]).all evClean = true :=
  (runMain_exit_codes none sFull).1 ()
    { currentBranch := "v3"
      branches := [("v3", [cNew, cOld]), ("public", [cNew, cB])]
      remotes := ["origin", "webclient"]
      publicRemoteHist := [cNew, cB] } _ (by decide)

/-- C9: for every `networkActivity` event delivered to the `protonLoader`
directive, a `'load'` event makes the loader element's class list contain
`'show'`, a `'close'` event removes `'show'` from it, and any other event
type leaves the class list unchanged; tokens other than `'show'` are never
affected. -/
theorem protonLoader_networkActivity_spec (ty : String) (cl : List String) :
    (ty = "load" →
      "show" ∈ protonLoaderOnNetworkActivity ty cl ∧
      ∀ c, c ≠ "show" → (c ∈ protonLoaderOnNetworkActivity ty cl ↔ c ∈ cl)) ∧
    (ty = "close" →
      "show" ∉ protonLoaderOnNetworkActivity ty cl ∧
      ∀ c, c ≠ "show" → (c ∈ protonLoaderOnNetworkActivity ty cl ↔ c ∈ cl)) ∧
    (ty ≠ "load" → ty ≠ "close" → protonLoaderOnNetworkActivity ty cl = cl) := by
  refine ⟨?_, ?_, ?_⟩
  · intro hty
    subst hty
    have hre : protonLoaderOnNetworkActivity "load" cl = classListAdd cl "show" := rfl
    rw [hre]
    constructor
    · unfold classListAdd
      by_cases hmem : "show" ∈ cl
      · rw [if_pos hmem]; exact hmem
      · rw [if_neg hmem]; simp
    · intro c hc
      unfold classListAdd
      by_cases hmem : "show" ∈ cl
      · rw [if_pos hmem]
      · rw [if_neg hmem]
        simp [hc]
  · intro hty
    subst hty
    have hre : protonLoaderOnNetworkActivity "close" cl = classListRemove cl "show" := rfl
    rw [hre]
    constructor
    · unfold classListRemove
      intro hmem
      have := List.of_mem_filter hmem
      simp at this
    · intro c hc
      unfold classListRemove
      simp [List.mem_filter, hc]
  · intro h1 h2
    unfold protonLoaderOnNetworkActivity
    simp only [if_neg h1, if_neg h2]

/-- Witness for C9 at the two event types. -/
theorem protonLoader_networkActivity_spec_witness :
    "show" ∈ protonLoaderOnNetworkActivity "load" ["proton-loader"] ∧
    "show" ∉ protonLoaderOnNetworkActivity "close" ["proton-loader", "show"] :=
  ⟨((protonLoader_networkActivity_spec "load" ["proton-loader"]).1 rfl).1,
   ((protonLoader_networkActivity_spec "close" ["proton-loader", "show"]).2.1 rfl).1⟩

/-- C10: every path in `vendor_files` (js, jsLazy, jsLazy2, css, fonts,
sass_include_dirs) and in `external_files.openpgp` starts with
`node_modules/`, while `external_files.manifest` is exactly the single
unprefixed path `manifest.json`. -/
theorem confBuild_paths_prefixed :
    ((confBuild.vendor_files.js ++ confBuild.vendor_files.jsLazy ++
      confBuild.vendor_files.jsLazy2 ++ confBuild.vendor_files.css ++
      confBuild.vendor_files.fonts ++ confBuild.vendor_files.sass_include_dirs ++
      confBuild.external_files.openpgp).all
        (fun p => "node_modules/".data.isPrefixOf p.data)) = true ∧
    confBuild.external_files.manifest = ["manifest.json"] := by
  constructor
  · decide
  · rfl

